import Mathlib

/-!
Shallow embedding of the in-memory CRUD store of the FastAPI-for-ML
repository, together with proofs about it.

The embedded code:
  * `src/first_project/routers/users.py` — handlers `get_all_users`,
    `get_user_by_id`, `create_user`, `update_user`, `delete_user` over the
    global dict `users`;
  * `src/first_project/routers/items.py` — handlers `create_item`,
    `update_item` (parametric in the `Item` payload, embedded as the record
    `new_item.dict()` produces);
  * `src/Pydantic for data validation/unset_and_patch.py` — the PATCH
    handler `update_user` over `dummy_db`, with
    `model_dump(exclude_unset=True)` semantics.

Python dicts preserve insertion order; they are embedded as association
lists with unique keys.  Assigning `d[k] = v` replaces the value in place
when `k` is present and appends `(k, v)` otherwise; `del d[k]` removes the
entry; `k in d` tests key membership.  `max(d.keys())` on an empty dict
raises `ValueError`; every raised exception (`HTTPException(404)` or
`ValueError`) is an `Err` value, and every handler is a function from the
store to a result together with the store it leaves behind (raising before
mutating leaves the store as it was).
-/

namespace CrudStore

/-- Value stored in a record field: Python ints, strings, `None`, or the
`UserType` enum of `src/first_project/schemes/user.py`. -/
inductive UserType where
  | admin
  | customer
deriving DecidableEq, Repr

inductive Value where
  | vInt (n : Int)
  | vStr (s : String)
  | vNull
  | vType (t : UserType)
deriving DecidableEq, Repr

/-- A Python dict from field name to value (one stored record, or a payload
produced by `.dict()` / `model_dump`). -/
abbrev Rec := List (String × Value)

/-- The in-memory "database": a Python dict from integer id to record. -/
abbrev Store := List (Int × Rec)

/-- Lookup `d[k]` / `d.get(k)`: first (and, keys being unique, only) binding. -/
def getD {K V : Type} [DecidableEq K] : List (K × V) → K → Option V
  | [], _ => Option.none
  | (k', v) :: t, k => if k' = k then Option.some v else getD t k

/-- Membership test `k in d`. -/
def containsKey {K V : Type} [DecidableEq K] (d : List (K × V)) (k : K) : Bool :=
  (getD d k).isSome

/-- Assignment `d[k] = v`: replace in place when present, append otherwise. -/
def setD {K V : Type} [DecidableEq K] : List (K × V) → K → V → List (K × V)
  | [], k, v => [(k, v)]
  | (k', v') :: t, k, v =>
      if k' = k then (k', v) :: t else (k', v') :: setD t k v

/-- Deletion `del d[k]` (keys are unique, so removing the first binding is `del`). -/
def delD {K V : Type} [DecidableEq K] : List (K × V) → K → List (K × V)
  | [], _ => []
  | (k', v') :: t, k => if k' = k then t else (k', v') :: delD t k

/-- Merging `d.update(o)`, and also the dict literal `{k: v, **o}` (which builds a
dict by successive assignment): fold assignment over `o`. -/
def updateD {K V : Type} [DecidableEq K] (d o : List (K × V)) : List (K × V) :=
  o.foldl (fun a p => setD a p.1 p.2) d

/-- Python `d.keys()`, in insertion order. -/
def keysD {K V : Type} (d : List (K × V)) : List K := d.map Prod.fst

/-- Python `d.values()`, in insertion order. -/
def valuesD {K V : Type} (d : List (K × V)) : List V := d.map Prod.snd

/-- The dict invariant: keys are pairwise distinct (Python dicts cannot
hold a key twice). -/
def nodupKeys {K V : Type} (d : List (K × V)) : Prop := (keysD d).Nodup

instance {K V : Type} [DecidableEq K] (d : List (K × V)) :
    Decidable (nodupKeys d) := by
  unfold nodupKeys; infer_instance

/-- Python `max(l)` for a Python iterable: `None` marks the `ValueError` raised on
an empty sequence. -/
def listMax : List Int → Option Int
  | [] => Option.none
  | x :: t => Option.some (t.foldl max x)

/-- The exceptions the handlers raise: `HTTPException(404, "... not found")`
or the `ValueError` of `max()` on an empty sequence. -/
inductive Err where
  | notFound
  | valueError
deriving DecidableEq, Repr

end CrudStore

namespace Users

open CrudStore

/-- Schema `UserIn` of `src/first_project/schemes/user.py`. -/
structure UserIn where
  name : String
  user_type : UserType
deriving DecidableEq, Repr

/-- Schema `UserOut` of `src/first_project/schemes/user.py`. -/
structure UserOut where
  id : Int
  user_type : UserType
deriving DecidableEq, Repr

/-- Serialization `user.dict()` for a `UserIn`. -/
def UserIn.dict (u : UserIn) : Rec :=
  [("name", Value.vStr u.name), ("user_type", Value.vType u.user_type)]

/-- A `UserOut` as the record it serializes to. -/
def UserOut.asRec (o : UserOut) : Rec :=
  [("id", Value.vInt o.id), ("user_type", Value.vType o.user_type)]

/-- Handler `get_all_users` (`users.py` lines 10-12): `return list(users.values())`. -/
def get_all_users (s : Store) : List Rec × Store :=
  (valuesD s, s)

/-- Handler `get_user_by_id` (`users.py` lines 16-20).  The route declares a path
segment `{user_id}` that the handler does not bind; the handler reads the
query parameter `id`, raises 404 when `id not in users`, and returns
`users[id]`. -/
def get_user_by_id (user_id : Int) (i : Int) (s : Store) :
    Except Err Rec × Store :=
  match getD s i with
  | Option.none => (Except.error Err.notFound, s)
  | Option.some r => (Except.ok r, s)

/-- Handler `create_user` (`users.py` lines 24-29): `new_id = max(users.keys()) + 1`
(raising `ValueError` when `users` is empty), store
`{'id': new_id, **user.dict()}`, return `UserOut(id=new_id,
user_type=user.user_type)`. -/
def create_user (s : Store) (u : UserIn) : Except Err UserOut × Store :=
  match listMax (keysD s) with
  | Option.none => (Except.error Err.valueError, s)
  | Option.some m =>
      let newId := m + 1
      let r := updateD [("id", Value.vInt newId)] u.dict
      (Except.ok ⟨newId, u.user_type⟩, setD s newId r)

/-- Handler `update_user` (`users.py` lines 33-38): 404 when `user_id not in users`,
otherwise `users[user_id] = {'id': user_id, **new_user.dict()}` and return
`UserOut(id=user_id, user_type=new_user.user_type)`. -/
def update_user (s : Store) (user_id : Int) (nu : UserIn) :
    Except Err UserOut × Store :=
  if containsKey s user_id then
    (Except.ok ⟨user_id, nu.user_type⟩,
      setD s user_id (updateD [("id", Value.vInt user_id)] nu.dict))
  else (Except.error Err.notFound, s)

/-- Handler `delete_user` (`users.py` lines 42-47): 404 when `user_id not in users`,
otherwise `del users[user_id]`. -/
def delete_user (s : Store) (user_id : Int) : Except Err Unit × Store :=
  if containsKey s user_id then (Except.ok (), delD s user_id)
  else (Except.error Err.notFound, s)

/-- The ids returned by a sequence of `create_user` calls threaded through
the store (a failed call returns no id and leaves the store unchanged). -/
def createSeqIds : Store → List UserIn → List Int
  | _, [] => []
  | s, u :: t =>
      match create_user s u with
      | (Except.ok out, s') => out.id :: createSeqIds s' t
      | (Except.error _, s') => createSeqIds s' t

end Users

namespace Items

open CrudStore

/-- Handler `create_item` (`items.py` lines 26-30): `new_id = max(items.keys()) + 1`
(raising `ValueError` when `items` is empty), then
`items[new_id] = {'id': new_id, **item.dict()}` and `return items[new_id]`.
The `Item` payload enters only through `item.dict()`, embedded as the
record `fields`; `items[new_id]` right after the assignment is the record
just stored (`getD_setD_self` below). -/
def create_item (s : Store) (fields : Rec) : Except Err Rec × Store :=
  match listMax (keysD s) with
  | Option.none => (Except.error Err.valueError, s)
  | Option.some m =>
      let newId := m + 1
      let r := updateD [("id", Value.vInt newId)] fields
      (Except.ok r, setD s newId r)

/-- Handler `update_item` (`items.py` lines 34-39): 404 when `item_id not in items`,
otherwise `items[item_id] = {'id': item_id, **new_item.dict()}` and
`return items[item_id]` (again the record just stored). -/
def update_item (s : Store) (item_id : Int) (fields : Rec) :
    Except Err Rec × Store :=
  if containsKey s item_id then
    let r := updateD [("id", Value.vInt item_id)] fields
    (Except.ok r, setD s item_id r)
  else (Except.error Err.notFound, s)

end Items

namespace Patch

open CrudStore

/-- Schema `UserUpdate` of `unset_and_patch.py`, with pydantic's tracking of which
fields the caller actually sent: the outer `Option` is "was the field
present in the request body", the inner value is the sent value, where
`Option.none` is an explicit JSON `null`. -/
structure UserUpdate where
  name : Option (Option String)
  age : Option (Option Int)
deriving DecidableEq, Repr

def optStr : Option String → Value
  | Option.none => Value.vNull
  | Option.some s => Value.vStr s

def optInt : Option Int → Value
  | Option.none => Value.vNull
  | Option.some n => Value.vInt n

/-- Pydantic `user_update.model_dump(exclude_unset=True)`: only the fields the
caller supplied, an explicit `null` included, a defaulted field omitted. -/
def UserUpdate.dumpExcludeUnset (u : UserUpdate) : Rec :=
  (match u.name with
   | Option.none => []
   | Option.some v => [("name", optStr v)]) ++
  (match u.age with
   | Option.none => []
   | Option.some v => [("age", optInt v)])

/-- Handler `update_user` of `unset_and_patch.py` (lines 61-77): 404 when
`user_id not in dummy_db.keys()`, otherwise merge
`model_dump(exclude_unset=True)` into the stored record with
`dict.update` and return the merged record (the stored dict is mutated in
place, so the store holds the merged record). -/
def update_user_patch (s : Store) (user_id : Int) (u : UserUpdate) :
    Except Err Rec × Store :=
  match getD s user_id with
  | Option.none => (Except.error Err.notFound, s)
  | Option.some r =>
      let r' := updateD r u.dumpExcludeUnset
      (Except.ok r', setD s user_id r')

end Patch


namespace CrudStore

/-! Lemmas about the embedded Python-dict operations. -/

theorem getD_eq_none_iff {K V : Type} [DecidableEq K] (d : List (K × V)) (k : K) :
    getD d k = Option.none ↔ k ∉ keysD d := by
  induction d with
  | nil => simp [getD, keysD]
  | cons p t ih =>
      obtain ⟨k', v⟩ := p
      simp only [keysD, List.map_cons, List.mem_cons] at ih ⊢
      by_cases h : k' = k
      · subst h
        simp [getD]
      · simp [getD, h, ih, Ne.symm h]

theorem getD_isSome_iff {K V : Type} [DecidableEq K] (d : List (K × V)) (k : K) :
    (getD d k).isSome = true ↔ k ∈ keysD d := by
  rw [Option.isSome_iff_ne_none]
  constructor
  · intro h
    by_contra hk
    exact h ((getD_eq_none_iff d k).mpr hk)
  · intro h hn
    exact ((getD_eq_none_iff d k).mp hn) h

theorem containsKey_iff_mem {K V : Type} [DecidableEq K] (d : List (K × V)) (k : K) :
    containsKey d k = true ↔ k ∈ keysD d := by
  unfold containsKey
  exact getD_isSome_iff d k

theorem getD_setD_self {K V : Type} [DecidableEq K] (d : List (K × V)) (k : K) (v : V) :
    getD (setD d k v) k = Option.some v := by
  induction d with
  | nil => simp [setD, getD]
  | cons p t ih =>
      obtain ⟨k', v'⟩ := p
      by_cases h : k' = k
      · simp [setD, h, getD]
      · simp [setD, h, getD, ih]

theorem getD_setD_ne {K V : Type} [DecidableEq K] (d : List (K × V)) (k k' : K) (v : V)
    (h : k' ≠ k) : getD (setD d k v) k' = getD d k' := by
  induction d with
  | nil => simp [setD, getD, Ne.symm h]
  | cons p t ih =>
      obtain ⟨k0, v0⟩ := p
      by_cases h0 : k0 = k
      · subst h0
        simp [setD, getD, Ne.symm h]
      · simp [setD, getD, h0, ih]

theorem keysD_setD_mem {K V : Type} [DecidableEq K] (d : List (K × V)) (k : K) (v : V)
    (h : k ∈ keysD d) : keysD (setD d k v) = keysD d := by
  induction d with
  | nil => simp [keysD] at h
  | cons p t ih =>
      obtain ⟨k0, v0⟩ := p
      simp only [keysD, List.map_cons, List.mem_cons] at h ih ⊢
      by_cases h0 : k0 = k
      · simp [setD, h0]
      · rcases h with h | h
        · exact absurd h.symm h0
        · simp only [setD, if_neg h0, List.map_cons]
          rw [ih h]

theorem keysD_setD_not_mem {K V : Type} [DecidableEq K] (d : List (K × V)) (k : K) (v : V)
    (h : k ∉ keysD d) : keysD (setD d k v) = keysD d ++ [k] := by
  induction d with
  | nil => simp [setD, keysD]
  | cons p t ih =>
      obtain ⟨k0, v0⟩ := p
      simp only [keysD, List.map_cons, List.mem_cons] at h ih ⊢
      push_neg at h
      have hne : ¬k0 = k := fun e => h.1 e.symm
      simp only [setD, if_neg hne, List.map_cons, List.cons_append]
      rw [ih h.2]

theorem valuesD_setD_not_mem {K V : Type} [DecidableEq K] (d : List (K × V)) (k : K) (v : V)
    (h : k ∉ keysD d) : valuesD (setD d k v) = valuesD d ++ [v] := by
  induction d with
  | nil => simp [setD, valuesD]
  | cons p t ih =>
      obtain ⟨k0, v0⟩ := p
      simp only [keysD, List.map_cons, List.mem_cons] at h
      simp only [valuesD, List.map_cons] at ih ⊢
      push_neg at h
      have h2 : k ∉ keysD t := by simpa [keysD] using h.2
      have hne : ¬k0 = k := fun e => h.1 e.symm
      simp only [setD, if_neg hne, List.map_cons, List.cons_append]
      rw [ih h2]

theorem nodupKeys_setD {K V : Type} [DecidableEq K] (d : List (K × V)) (k : K) (v : V)
    (h : nodupKeys d) : nodupKeys (setD d k v) := by
  by_cases hm : k ∈ keysD d
  · unfold nodupKeys
    rw [keysD_setD_mem d k v hm]
    exact h
  · unfold nodupKeys
    rw [keysD_setD_not_mem d k v hm]
    simpa [List.nodup_append] using ⟨h, hm⟩

theorem getD_delD_self {K V : Type} [DecidableEq K] (d : List (K × V)) (k : K)
    (h : nodupKeys d) : getD (delD d k) k = Option.none := by
  induction d with
  | nil => simp [delD, getD]
  | cons p t ih =>
      obtain ⟨k0, v0⟩ := p
      unfold nodupKeys at h
      simp only [keysD, List.map_cons, List.nodup_cons] at h
      by_cases h0 : k0 = k
      · subst h0
        simp only [delD, if_pos rfl]
        exact (getD_eq_none_iff t k0).mpr (by simpa [keysD] using h.1)
      · simp only [delD, if_neg h0, getD, if_neg h0]
        exact ih (by simpa [nodupKeys, keysD] using h.2)

theorem keysD_delD_sublist {K V : Type} [DecidableEq K] (d : List (K × V)) (k : K) :
    (keysD (delD d k)).Sublist (keysD d) := by
  induction d with
  | nil => simp [delD]
  | cons p t ih =>
      obtain ⟨k0, v0⟩ := p
      by_cases h0 : k0 = k
      · simp only [delD, if_pos h0, keysD, List.map_cons]
        exact List.sublist_cons_self k0 (List.map Prod.fst t)
      · simp only [delD, if_neg h0, keysD, List.map_cons]
        exact List.Sublist.cons₂ k0 ih

theorem nodupKeys_delD {K V : Type} [DecidableEq K] (d : List (K × V)) (k : K)
    (h : nodupKeys d) : nodupKeys (delD d k) :=
  (keysD_delD_sublist d k).nodup h

theorem getD_updateD_not_mem {K V : Type} [DecidableEq K] (o : List (K × V)) (k : K)
    (h : k ∉ keysD o) : ∀ d : List (K × V), getD (updateD d o) k = getD d k := by
  induction o with
  | nil =>
      intro d
      simp [updateD]
  | cons p t ih =>
      obtain ⟨k0, v0⟩ := p
      simp only [keysD, List.map_cons, List.mem_cons] at h
      push_neg at h
      intro d
      have h2 : k ∉ keysD t := by simpa [keysD] using h.2
      show getD (updateD (setD d k0 v0) t) k = getD d k
      rw [ih h2 (setD d k0 v0)]
      exact getD_setD_ne d k0 k v0 h.1

theorem getD_updateD_mem {K V : Type} [DecidableEq K] (o : List (K × V)) (k : K)
    (ho : nodupKeys o) (h : k ∈ keysD o) :
    ∀ d : List (K × V), getD (updateD d o) k = getD o k := by
  induction o with
  | nil => simp [keysD] at h
  | cons p t ih =>
      obtain ⟨k0, v0⟩ := p
      unfold nodupKeys at ho
      simp only [keysD, List.map_cons, List.nodup_cons] at ho
      simp only [keysD, List.map_cons, List.mem_cons] at h
      intro d
      by_cases h0 : k0 = k
      · subst h0
        have hnt : k0 ∉ keysD t := by simpa [keysD] using ho.1
        show getD (updateD (setD d k0 v0) t) k0 = _
        rw [getD_updateD_not_mem t k0 hnt (setD d k0 v0), getD_setD_self]
        simp [getD]
      · have hm : k ∈ keysD t := by
          rcases h with h | h
          · exact absurd h.symm h0
          · simpa [keysD] using h
        have hnodt : nodupKeys t := by simpa [nodupKeys, keysD] using ho.2
        show getD (updateD (setD d k0 v0) t) k = _
        rw [ih hnodt hm (setD d k0 v0)]
        simp [getD, h0]

theorem le_foldl_max (t : List Int) : ∀ x : Int, x ≤ t.foldl max x := by
  induction t with
  | nil => intro x; exact le_refl x
  | cons y t' ih =>
      intro x
      exact le_trans (le_max_left x y) (ih (max x y))

theorem mem_le_foldl_max (t : List Int) :
    ∀ (x a : Int), a ∈ t → a ≤ t.foldl max x := by
  induction t with
  | nil => intro x a h; simp at h
  | cons y t' ih =>
      intro x a h
      rcases List.mem_cons.mp h with h | h
      · subst h
        exact le_trans (le_max_right x a) (le_foldl_max t' (max x a))
      · exact ih (max x y) a h

theorem listMax_is_ub (l : List Int) (m : Int) (h : listMax l = Option.some m) :
    ∀ x ∈ l, x ≤ m := by
  cases l with
  | nil => simp [listMax] at h
  | cons x t =>
      simp only [listMax, Option.some.injEq] at h
      subst h
      intro a ha
      rcases List.mem_cons.mp ha with ha | ha
      · subst ha
        exact le_foldl_max t a
      · exact mem_le_foldl_max t x a ha

theorem listMax_isSome (l : List Int) (h : l ≠ []) :
    ∃ m, listMax l = Option.some m := by
  cases l with
  | nil => exact absurd rfl h
  | cons x t => exact ⟨t.foldl max x, rfl⟩

end CrudStore

namespace Users

open CrudStore

/-- Shape of a successful `create_user`: the returned id is `m + 1` for
`m = max(users.keys())`, and the record `{'id': new_id, **user.dict()}` is
stored under it. -/
theorem create_user_ok (s : Store) (u : UserIn) (m : Int)
    (hm : listMax (keysD s) = Option.some m) :
    create_user s u =
      (Except.ok ⟨m + 1, u.user_type⟩,
        setD s (m + 1) (updateD [("id", Value.vInt (m + 1))] u.dict)) := by
  unfold create_user
  rw [hm]

/-- A successful `create_user` assigns an id strictly above every key, the
new key list is the old one with the new id appended, and the key
invariant is preserved. -/
theorem create_user_state (s : Store) (u : UserIn) (m : Int)
    (hnd : nodupKeys s) (hm : listMax (keysD s) = Option.some m) :
    keysD (create_user s u).2 = keysD s ++ [m + 1] ∧
      nodupKeys (create_user s u).2 ∧ ∀ k ∈ keysD s, k < m + 1 := by
  have hub : ∀ k ∈ keysD s, k < m + 1 := fun k hk =>
    lt_of_le_of_lt (listMax_is_ub (keysD s) m hm k hk) (by omega)
  have hnotmem : (m + 1) ∉ keysD s := fun hmem =>
    absurd rfl (ne_of_lt (hub (m + 1) hmem))
  rw [create_user_ok s u m hm]
  refine ⟨keysD_setD_not_mem s (m + 1) _ hnotmem, ?_, hub⟩
  exact nodupKeys_setD s (m + 1) _ hnd

/-- Invariant for sequences of `create_user` calls: the returned ids are a
strictly increasing chain, each strictly greater than every key present in
the starting store. -/
theorem createSeqIds_chain (us : List UserIn) :
    ∀ s : Store, nodupKeys s →
      ((createSeqIds s us).Chain' (· < ·) ∧
        ∀ j ∈ createSeqIds s us, ∀ k ∈ keysD s, k < j) := by
  induction us with
  | nil =>
      intro s _
      exact ⟨List.chain'_nil, by intro j hj; simp [createSeqIds] at hj⟩
  | cons u t ih =>
      intro s hnd
      cases s with
      | nil =>
          have hstep : createSeqIds [] (u :: t) = createSeqIds [] t := by
            simp [createSeqIds, create_user, keysD, listMax]
          rw [hstep]
          refine ⟨(ih [] hnd).1, ?_⟩
          intro j _ k hk
          simp [keysD] at hk
      | cons p s0 =>
          obtain ⟨m, hm⟩ := listMax_isSome (keysD (p :: s0)) (by simp [keysD])
          have hok := create_user_ok (p :: s0) u m hm
          have hstate := create_user_state (p :: s0) u m hnd hm
          rw [hok] at hstate
          have hstep : createSeqIds (p :: s0) (u :: t) =
              (m + 1) ::
                createSeqIds
                  (setD (p :: s0) (m + 1)
                    (updateD [("id", Value.vInt (m + 1))] u.dict)) t := by
            simp [createSeqIds, hok]
          obtain ⟨hkeys, hnd', hub⟩ := hstate
          have hrest := ih _ hnd'
          rw [hstep]
          constructor
          · rw [List.chain'_cons']
            refine ⟨?_, hrest.1⟩
            intro y hy
            have hymem := List.mem_of_mem_head? hy
            have := hrest.2 y hymem (m + 1) (by rw [hkeys]; simp)
            exact this
          · intro j hj k hk
            rcases List.mem_cons.mp hj with hj | hj
            · subst hj
              exact hub k hk
            · exact hrest.2 j hj k (by rw [hkeys]; exact List.mem_append_left _ hk)

end Users

namespace Users

open CrudStore

/-- C9: the id computation of `create_user` is total only on non-empty
stores.  On every non-empty store `max(users.keys()) + 1` is defined and
the call succeeds with that id; on the empty store the call fails with the
`ValueError` of `max()` on an empty sequence — an error distinct from
`NotFound` — so the empty-store case never assigns id 1. -/
theorem c9_create_total_only_on_nonempty :
    (∀ (s : Store) (u : UserIn), s ≠ [] →
        ∃ (m : Int) (out : UserOut) (s' : Store),
          listMax (keysD s) = Option.some m ∧
          create_user s u = (Except.ok out, s') ∧ out.id = m + 1) ∧
    (∀ u : UserIn,
        create_user [] u = (Except.error Err.valueError, []) ∧
        Err.valueError ≠ Err.notFound ∧
        (create_user [] u).1.isOk = false) := by
  constructor
  · intro s u hs
    have hk : keysD s ≠ [] := by
      cases s with
      | nil => exact absurd rfl hs
      | cons p t => simp [keysD]
    obtain ⟨m, hm⟩ := listMax_isSome (keysD s) hk
    exact ⟨m, ⟨m + 1, u.user_type⟩, _, hm, create_user_ok s u m hm, rfl⟩
  · intro u
    refine ⟨rfl, by decide, rfl⟩

/-- Witness for C9 at the store `{1: {}}` and the empty store. -/
theorem c9_witness :
    ∃ (m : Int) (out : UserOut) (s' : Store),
      listMax (keysD ([(1, [])] : Store)) = Option.some m ∧
      create_user [(1, [])] ⟨"Alice", UserType.admin⟩ = (Except.ok out, s') ∧
      out.id = m + 1 :=
  c9_create_total_only_on_nonempty.1 [(1, [])] ⟨"Alice", UserType.admin⟩ (by decide)

/-- C1, counterexample to the empty-store clause: on the empty store
`create_user` raises the `ValueError` of `max()` instead of assigning
id 1 — no record is created and no identifier is returned. -/
theorem c1_counterexample :
    create_user [] ⟨"Alice", UserType.admin⟩ =
      (Except.error Err.valueError, []) ∧
    (create_user [] ⟨"Alice", UserType.admin⟩).1.isOk = false := by
  exact ⟨rfl, rfl⟩

/-- C1 (amended): whenever `max(users.keys())` is defined (the store is
non-empty) the assigned id equals that maximum plus one and is strictly
greater than every id present; on sequences of `create_user` calls from a
store with distinct keys, the returned identifiers are strictly increasing
and pairwise distinct.  (On the empty store the call fails with
`ValueError` instead of assigning id 1 — see `c1_counterexample`.) -/
theorem c1_create_id_fresh_and_increasing :
    (∀ (s : Store) (u : UserIn) (m : Int),
        listMax (keysD s) = Option.some m →
        (create_user s u).1 = Except.ok ⟨m + 1, u.user_type⟩ ∧
        ∀ k ∈ keysD s, k < m + 1) ∧
    (∀ (s : Store) (us : List UserIn), nodupKeys s →
        (createSeqIds s us).Chain' (· < ·) ∧ (createSeqIds s us).Nodup) := by
  constructor
  · intro s u m hm
    refine ⟨by rw [create_user_ok s u m hm], ?_⟩
    intro k hk
    exact lt_of_le_of_lt (listMax_is_ub (keysD s) m hm k hk) (by omega)
  · intro s us hnd
    have h := createSeqIds_chain us s hnd
    refine ⟨h.1, ?_⟩
    have hpw : (createSeqIds s us).Pairwise (· < ·) :=
      List.chain'_iff_pairwise.mp h.1
    exact hpw.imp (fun hlt => ne_of_lt hlt)

/-- Witness for C1 at the store `{1: {}}` and a two-call create sequence. -/
theorem c1_witness :
    (create_user [(1, [])] ⟨"Alice", UserType.admin⟩).1 =
      Except.ok ⟨2, UserType.admin⟩ ∧
    (createSeqIds [(1, [])]
      [⟨"Alice", UserType.admin⟩, ⟨"Bob", UserType.customer⟩]).Chain' (· < ·) :=
  ⟨(c1_create_id_fresh_and_increasing.1 [(1, [])] ⟨"Alice", UserType.admin⟩ 1
      (by decide)).1,
   (c1_create_id_fresh_and_increasing.2 [(1, [])]
      [⟨"Alice", UserType.admin⟩, ⟨"Bob", UserType.customer⟩] (by decide)).1⟩

/-- C10: the fetch-by-id handler binds only the query parameter `id`; the
path segment `user_id` of its route is never read.  Two invocations with
the same query id and any two path values produce the same result, and the
store is returned unchanged. -/
theorem c10_path_segment_ignored (p1 p2 i : Int) (s : Store) :
    get_user_by_id p1 i s = get_user_by_id p2 i s ∧
    (get_user_by_id p1 i s).2 = s := by
  refine ⟨rfl, ?_⟩
  unfold get_user_by_id
  cases getD s i <;> rfl

end Users

namespace CrudStore

/-- Reassigning the same key overwrites the previous assignment. -/
theorem setD_setD_self {K V : Type} [DecidableEq K] (d : List (K × V)) (k : K) (v w : V) :
    setD (setD d k v) k w = setD d k w := by
  induction d with
  | nil => simp [setD]
  | cons p t ih =>
      obtain ⟨k0, v0⟩ := p
      by_cases h : k0 = k <;> simp [setD, h, ih]

end CrudStore

namespace Users

open CrudStore

/-- C8: on every store state — the empty store included — `get_all_users`
lists the stored records without side effects: the store is returned
unchanged, the listing has one element per stored entry, and the element at
each position is the record of the entry inserted at that position
(insertion order).  Moreover a successful `create_user` extends the
listing by exactly the one new record at the end. -/
theorem c8_list_insertion_order (s : Store) :
    (get_all_users s).2 = s ∧
    ((get_all_users s).1).length = s.length ∧
    (∀ n : Nat, ((get_all_users s).1)[n]? = (s[n]?).map Prod.snd) ∧
    (∀ (u : UserIn) (m : Int), listMax (keysD s) = Option.some m →
      (get_all_users (create_user s u).2).1 =
        (get_all_users s).1 ++ [updateD [("id", Value.vInt (m + 1))] u.dict]) := by
  refine ⟨rfl, by simp [get_all_users, valuesD], ?_, ?_⟩
  · intro n
    simp [get_all_users, valuesD]
  · intro u m hm
    have hnotmem : (m + 1) ∉ keysD s := fun hmem =>
      absurd rfl (ne_of_lt
        (lt_of_le_of_lt (listMax_is_ub (keysD s) m hm (m + 1) hmem) (by omega)))
    rw [create_user_ok s u m hm]
    exact valuesD_setD_not_mem s (m + 1) _ hnotmem

/-- Witness for C8 at the store `{1: {}}` (and, for the unconditional
conjuncts, any store): the inner create hypothesis is discharged at
`max = 1`. -/
theorem c8_witness :
    (get_all_users ([(1, [])] : Store)).2 = [(1, [])] ∧
    (get_all_users
        (create_user [(1, [])] ⟨"Alice", UserType.admin⟩).2).1 =
      (get_all_users ([(1, [])] : Store)).1 ++
        [updateD [("id", Value.vInt 2)] (UserIn.dict ⟨"Alice", UserType.admin⟩)] := by
  have h := c8_list_insertion_order [(1, [])]
  exact ⟨h.1, h.2.2.2 ⟨"Alice", UserType.admin⟩ 1 (by decide)⟩

/-- C4: each of `get_user_by_id`, `update_user`, the PATCH `update_user`
and `delete_user` fails, and fails with `NotFound`, exactly when the id is
absent; a failing call leaves the store unchanged; after a successful
delete, a get of the same id and a second delete both fail with `NotFound`
(the second delete changing nothing). -/
theorem c4_notfound_iff_absent (s : Store) (p i : Int) (nu : UserIn)
    (pu : Patch.UserUpdate) (hnd : nodupKeys s) :
    ((get_user_by_id p i s).1 = Except.error Err.notFound ↔ i ∉ keysD s) ∧
    (get_user_by_id p i s).2 = s ∧
    ((update_user s i nu).1 = Except.error Err.notFound ↔ i ∉ keysD s) ∧
    (i ∉ keysD s → (update_user s i nu).2 = s) ∧
    ((Patch.update_user_patch s i pu).1 = Except.error Err.notFound ↔ i ∉ keysD s) ∧
    (i ∉ keysD s → (Patch.update_user_patch s i pu).2 = s) ∧
    ((delete_user s i).1 = Except.error Err.notFound ↔ i ∉ keysD s) ∧
    (i ∉ keysD s → (delete_user s i).2 = s) ∧
    (i ∈ keysD s →
      (get_user_by_id p i (delete_user s i).2).1 = Except.error Err.notFound ∧
      (delete_user (delete_user s i).2 i).1 = Except.error Err.notFound ∧
      (delete_user (delete_user s i).2 i).2 = (delete_user s i).2) := by
  have habs : getD s i = Option.none ↔ i ∉ keysD s := getD_eq_none_iff s i
  have hcont : containsKey s i = true ↔ i ∈ keysD s := containsKey_iff_mem s i
  refine ⟨?_, ?_, ?_, ?_, ?_, ?_, ?_, ?_, ?_⟩
  · unfold get_user_by_id
    cases h : getD s i with
    | none => simpa using habs.mp h
    | some r =>
        simp only []
        constructor
        · intro he
          exact absurd he (by simp)
        · intro hni
          have hn := habs.mpr hni
          rw [h] at hn
          exact absurd hn (by simp)
  · unfold get_user_by_id
    cases getD s i <;> rfl
  · unfold update_user
    by_cases h : containsKey s i = true
    · simp [h, hcont.mp h]
    · have : i ∉ keysD s := fun hmem => h (hcont.mpr hmem)
      simp [h, this]
  · intro hni
    unfold update_user
    have : ¬containsKey s i = true := fun hc => hni (hcont.mp hc)
    simp [this]
  · unfold Patch.update_user_patch
    cases h : getD s i with
    | none => simpa using habs.mp h
    | some r =>
        simp only []
        constructor
        · intro he
          exact absurd he (by simp)
        · intro hni
          have hn := habs.mpr hni
          rw [h] at hn
          exact absurd hn (by simp)
  · intro hni
    unfold Patch.update_user_patch
    rw [habs.mpr hni]
  · unfold delete_user
    by_cases h : containsKey s i = true
    · simp [h, hcont.mp h]
    · have : i ∉ keysD s := fun hmem => h (hcont.mpr hmem)
      simp [h, this]
  · intro hni
    unfold delete_user
    have : ¬containsKey s i = true := fun hc => hni (hcont.mp hc)
    simp [this]
  · intro hin
    have hc : containsKey s i = true := hcont.mpr hin
    have hdel : (delete_user s i).2 = delD s i := by
      unfold delete_user
      simp [hc]
    have hgone : getD (delD s i) i = Option.none := getD_delD_self s i hnd
    refine ⟨?_, ?_, ?_⟩
    · rw [hdel]
      unfold get_user_by_id
      rw [hgone]
    · rw [hdel]
      unfold delete_user containsKey
      rw [hgone]
      rfl
    · rw [hdel]
      unfold delete_user containsKey
      rw [hgone]
      simp [hdel]

/-- Witness for C4 at the store `{1: {}}` with id 1 (present) and the
derived delete-then-get failure. -/
theorem c4_witness :
    (get_user_by_id 7 1 (delete_user [(1, [])] 1).2).1 =
      Except.error Err.notFound ∧
    (delete_user (delete_user [(1, [])] 1).2 1).1 = Except.error Err.notFound := by
  have h := c4_notfound_iff_absent [(1, [])] 7 1 ⟨"Alice", UserType.admin⟩
    ⟨Option.none, Option.none⟩ (by decide)
  have h9 := h.2.2.2.2.2.2.2.2 (by decide)
  exact ⟨h9.1, h9.2.1⟩

end Users

namespace Items

open CrudStore

/-- C5: `update_item` (and the identical store assignment of `update_user`)
replaces the whole record: the handler returns `{'id': item_id, **fields}`,
stores exactly that record under the id, every key of the old record that
is neither `id` nor a key of `fields` is gone, repeating the call with the
same fields leaves the same store, and on `{'name': 'Alice', 'age': 30}`
the replacement by `{'name': 'Bob'}` keeps no `age` field. -/
theorem c5_replace_drops_old_fields (s : Store) (i : Int) (fields : Rec)
    (hin : i ∈ keysD s) :
    (update_item s i fields).1 =
      Except.ok (updateD [("id", Value.vInt i)] fields) ∧
    getD (update_item s i fields).2 i =
      Option.some (updateD [("id", Value.vInt i)] fields) ∧
    (∀ k, k ≠ "id" → k ∉ keysD fields →
      getD (updateD [("id", Value.vInt i)] fields) k = Option.none) ∧
    (update_item (update_item s i fields).2 i fields).2 =
      (update_item s i fields).2 ∧
    update_item [(5, [("name", Value.vStr "Alice"), ("age", Value.vInt 30)])] 5
        [("name", Value.vStr "Bob")] =
      (Except.ok [("id", Value.vInt 5), ("name", Value.vStr "Bob")],
        [(5, [("id", Value.vInt 5), ("name", Value.vStr "Bob")])]) := by
  have hc : containsKey s i = true := (containsKey_iff_mem s i).mpr hin
  have hstep : update_item s i fields =
      (Except.ok (updateD [("id", Value.vInt i)] fields),
        setD s i (updateD [("id", Value.vInt i)] fields)) := by
    unfold update_item
    simp [hc]
  refine ⟨by rw [hstep], ?_, ?_, ?_, by rfl⟩
  · rw [hstep]
    exact getD_setD_self s i _
  · intro k hkid hkf
    rw [getD_updateD_not_mem fields k hkf [("id", Value.vInt i)]]
    simp [getD, Ne.symm hkid]
  · have hc' : containsKey (setD s i (updateD [("id", Value.vInt i)] fields)) i = true := by
      unfold containsKey
      rw [getD_setD_self]
      rfl
    rw [hstep]
    unfold update_item
    simp only [hc', if_pos]
    rw [setD_setD_self]

/-- Witness for C5 at the store `{5: {'name': 'Alice', 'age': 30}}`. -/
theorem c5_witness :
    (update_item [(5, [("name", Value.vStr "Alice"), ("age", Value.vInt 30)])] 5
        [("name", Value.vStr "Bob")]).1 =
      Except.ok (updateD [("id", Value.vInt 5)] [("name", Value.vStr "Bob")]) :=
  (c5_replace_drops_old_fields
    [(5, [("name", Value.vStr "Alice"), ("age", Value.vInt 30)])] 5
    [("name", Value.vStr "Bob")] (by decide)).1

end Items

namespace Patch

open CrudStore

/-- The keys of an `exclude_unset` dump are distinct. -/
theorem dumpExcludeUnset_nodup (pu : UserUpdate) :
    nodupKeys pu.dumpExcludeUnset := by
  cases hn : pu.name <;> cases ha : pu.age <;>
    simp [UserUpdate.dumpExcludeUnset, hn, ha, nodupKeys, keysD]

/-- C3: the PATCH handler merges exactly the caller-supplied keys into the
stored record: unsupplied keys keep their stored value, every supplied key
takes the supplied value, a key supplied as an explicit `null` is part of
the update and sets the field to `None`, and merging `{'age': 31}` into
`{'name': 'Alice', 'age': 30}` yields `{'name': 'Alice', 'age': 31}`. -/
theorem c3_merge_updates_only_supplied_keys (s : Store) (i : Int) (r : Rec)
    (pu : UserUpdate) (hr : getD s i = Option.some r) :
    (update_user_patch s i pu).1 =
      Except.ok (updateD r pu.dumpExcludeUnset) ∧
    getD (update_user_patch s i pu).2 i =
      Option.some (updateD r pu.dumpExcludeUnset) ∧
    (∀ k, k ∉ keysD pu.dumpExcludeUnset →
      getD (updateD r pu.dumpExcludeUnset) k = getD r k) ∧
    (∀ k v, getD pu.dumpExcludeUnset k = Option.some v →
      getD (updateD r pu.dumpExcludeUnset) k = Option.some v) ∧
    (pu.name = Option.some Option.none →
      getD (updateD r pu.dumpExcludeUnset) "name" = Option.some Value.vNull) ∧
    update_user_patch [(1, [("name", Value.vStr "Alice"), ("age", Value.vInt 30)])] 1
        ⟨Option.none, Option.some (Option.some 31)⟩ =
      (Except.ok [("name", Value.vStr "Alice"), ("age", Value.vInt 31)],
        [(1, [("name", Value.vStr "Alice"), ("age", Value.vInt 31)])]) := by
  have hstep : update_user_patch s i pu =
      (Except.ok (updateD r pu.dumpExcludeUnset),
        setD s i (updateD r pu.dumpExcludeUnset)) := by
    unfold update_user_patch
    rw [hr]
  have hmem : ∀ k v, getD pu.dumpExcludeUnset k = Option.some v →
      getD (updateD r pu.dumpExcludeUnset) k = Option.some v := by
    intro k v hkv
    have hk : k ∈ keysD pu.dumpExcludeUnset := by
      rw [← getD_isSome_iff]
      rw [hkv]
      rfl
    rw [getD_updateD_mem pu.dumpExcludeUnset k (dumpExcludeUnset_nodup pu) hk r]
    exact hkv
  refine ⟨by rw [hstep], ?_, ?_, hmem, ?_, by rfl⟩
  · rw [hstep]
    exact getD_setD_self s i _
  · intro k hk
    exact getD_updateD_not_mem pu.dumpExcludeUnset k hk r
  · intro hname
    apply hmem
    cases ha : pu.age <;>
      simp [UserUpdate.dumpExcludeUnset, hname, ha, getD, optStr]

/-- Witness for C3 at the store `{1: {'name': 'Alice', 'age': 30}}` with a
request supplying only `age = 31`. -/
theorem c3_witness :
    (update_user_patch [(1, [("name", Value.vStr "Alice"), ("age", Value.vInt 30)])] 1
        ⟨Option.none, Option.some (Option.some 31)⟩).1 =
      Except.ok (updateD [("name", Value.vStr "Alice"), ("age", Value.vInt 30)]
        (UserUpdate.dumpExcludeUnset ⟨Option.none, Option.some (Option.some 31)⟩)) :=
  (c3_merge_updates_only_supplied_keys
    [(1, [("name", Value.vStr "Alice"), ("age", Value.vInt 30)])] 1
    [("name", Value.vStr "Alice"), ("age", Value.vInt 30)]
    ⟨Option.none, Option.some (Option.some 31)⟩ (by decide)).1

end Patch

namespace Users

open CrudStore

/-- The dict literal `{'id': new_id, **user.dict()}` is the id binding
followed by the two `UserIn` fields. -/
theorem updateD_id_dict (v : Value) (u : UserIn) :
    updateD [("id", v)] u.dict = [("id", v)] ++ u.dict := rfl

/-- C6: fetching the id assigned by an immediately preceding `create_user`
returns the record holding exactly the caller-supplied fields plus the
assigned id, and changes nothing. -/
theorem c6_get_after_create (s : Store) (u : UserIn) (p m : Int)
    (hm : listMax (keysD s) = Option.some m) :
    (create_user s u).1 = Except.ok ⟨m + 1, u.user_type⟩ ∧
    get_user_by_id p (m + 1) (create_user s u).2 =
      (Except.ok ([("id", Value.vInt (m + 1))] ++ u.dict),
        (create_user s u).2) := by
  rw [create_user_ok s u m hm]
  refine ⟨rfl, ?_⟩
  unfold get_user_by_id
  rw [getD_setD_self, updateD_id_dict]

/-- Witness for C6 at the store `{1: {}}`. -/
theorem c6_witness :
    (create_user [(1, [])] ⟨"Alice", UserType.admin⟩).1 =
      Except.ok ⟨2, UserType.admin⟩ ∧
    get_user_by_id 9 2 (create_user [(1, [])] ⟨"Alice", UserType.admin⟩).2 =
      (Except.ok ([("id", Value.vInt 2)] ++ UserIn.dict ⟨"Alice", UserType.admin⟩),
        (create_user [(1, [])] ⟨"Alice", UserType.admin⟩).2) :=
  c6_get_after_create [(1, [])] ⟨"Alice", UserType.admin⟩ 9 1 (by decide)

/-- C7, counterexample: `create_user` stores the three-field record
`{'id': 2, 'name': 'Alice', 'user_type': 'Admin'}` but returns the
`UserOut` value `{'id': 2, 'user_type': 'Admin'}`, which has no `name`
field — the returned value is not the record just stored. -/
theorem c7_counterexample :
    create_user [(1, [])] ⟨"Alice", UserType.admin⟩ =
      (Except.ok ⟨2, UserType.admin⟩,
        [(1, []),
         (2, [("id", Value.vInt 2), ("name", Value.vStr "Alice"),
              ("user_type", Value.vType UserType.admin)])]) ∧
    getD (UserOut.asRec ⟨2, UserType.admin⟩) "name" = Option.none ∧
    UserOut.asRec ⟨2, UserType.admin⟩ ≠
      [("id", Value.vInt 2), ("name", Value.vStr "Alice"),
       ("user_type", Value.vType UserType.admin)] := by
  refine ⟨rfl, rfl, by decide⟩

/-- C7 (amended): `create_user` and `create_item` both store
`{id, **fields}` under the fresh id; `create_item` returns exactly the
stored record, while `create_user` returns only the `{id, user_type}`
projection of it. -/
theorem c7_create_stores_full_record (s : Store) (u : UserIn) (fields : Rec)
    (m : Int) (hm : listMax (keysD s) = Option.some m) :
    getD (create_user s u).2 (m + 1) =
      Option.some (updateD [("id", Value.vInt (m + 1))] u.dict) ∧
    (create_user s u).1 = Except.ok ⟨m + 1, u.user_type⟩ ∧
    Items.create_item s fields =
      (Except.ok (updateD [("id", Value.vInt (m + 1))] fields),
        setD s (m + 1) (updateD [("id", Value.vInt (m + 1))] fields)) ∧
    getD (Items.create_item s fields).2 (m + 1) =
      Option.some (updateD [("id", Value.vInt (m + 1))] fields) := by
  have hitem : Items.create_item s fields =
      (Except.ok (updateD [("id", Value.vInt (m + 1))] fields),
        setD s (m + 1) (updateD [("id", Value.vInt (m + 1))] fields)) := by
    unfold Items.create_item
    rw [hm]
  rw [create_user_ok s u m hm, hitem]
  exact ⟨getD_setD_self s (m + 1) _, rfl, rfl, getD_setD_self s (m + 1) _⟩

/-- Witness for C7 at the store `{1: {}}`. -/
theorem c7_witness :
    getD (create_user [(1, [])] ⟨"Bob", UserType.customer⟩).2 2 =
      Option.some (updateD [("id", Value.vInt 2)]
        (UserIn.dict ⟨"Bob", UserType.customer⟩)) :=
  (c7_create_stores_full_record [(1, [])] ⟨"Bob", UserType.customer⟩ [] 1
    (by decide)).1

/-- C2, counterexample: in the store `{1: {}, 2: {}}`, deleting id 2
succeeds, and the next `create_user` assigns `max({1}) + 1 = 2` — the
deleted identifier is returned again. -/
theorem c2_counterexample :
    delete_user [(1, []), (2, [])] 2 = (Except.ok (), [(1, [])]) ∧
    (create_user [(1, [])] ⟨"Alice", UserType.admin⟩).1 =
      Except.ok ⟨2, UserType.admin⟩ :=
  ⟨rfl, rfl⟩

/-- C2 (amended): a deleted id can be reused — deleting id 2 from the store
`{1: {}, 2: {}}` makes the next create return 2 again
(`c2_counterexample`); what does hold is that after `delete_user`
succeeds, a `create_user` performed while some id at least as large as the
deleted one is still present never returns the deleted id. -/
theorem c2_no_reuse_while_larger_id_present (s s₂ : Store) (i : Int)
    (u : UserIn) (hdel : delete_user s i = (Except.ok (), s₂))
    (h : ∃ k ∈ keysD s₂, i ≤ k) :
    ∀ (out : UserOut) (s' : Store),
      create_user s₂ u = (Except.ok out, s') → out.id ≠ i := by
  intro out s' hc
  obtain ⟨k, hk, hik⟩ := h
  unfold create_user at hc
  cases hmx : listMax (keysD s₂) with
  | none =>
      rw [hmx] at hc
      exact absurd (congrArg Prod.fst hc) (by simp)
  | some m =>
      rw [hmx] at hc
      have h1 : (⟨m + 1, u.user_type⟩ : UserOut) = out := by
        have h0 := congrArg Prod.fst hc
        simpa using h0
      intro hieq
      rw [← h1] at hieq
      simp at hieq
      have hkm : k ≤ m := listMax_is_ub (keysD s₂) m hmx k hk
      omega

/-- Witness for C2 (amended): delete id 1 from `{1: {}, 3: {}}`; id 3 ≥ 1
remains, and the following create returns 4, not 1. -/
theorem c2_witness : (⟨4, UserType.admin⟩ : UserOut).id ≠ 1 :=
  c2_no_reuse_while_larger_id_present [(1, []), (3, [])] [(3, [])] 1
    ⟨"Alice", UserType.admin⟩ rfl ⟨3, by decide, by decide⟩
    ⟨4, UserType.admin⟩
    [(3, []), (4, [("id", Value.vInt 4), ("name", Value.vStr "Alice"),
      ("user_type", Value.vType UserType.admin)])] rfl

end Users
